import Mathlib

/-!
Verification development for the lambda-ci tool (src/lambda-ci.go).

The tool discovers `.function.yaml` descriptor files under a root
directory, parses each into a `functionConfig` record, builds the
referenced Go source with `go build`, packages the binary into a
single-entry deflate zip archive, uploads it to AWS Lambda, and cleans
up the temporary files.

We shallowly embed the Go code: strings are `List Char`, file contents
are `List Nat` (bytes), the filesystem and the external collaborators
(the YAML library, the zip/deflate codec, the AWS SDK) are explicit
parameters or small oracle structures.  Process control flow (the
`defer` / `logrus.Fatal` interaction in `main`) is embedded as an
explicit step semantics: `logrus.Fatal` terminates the process via
`os.Exit`, which does not run pending deferred functions.
-/

namespace LambdaCI

/-- The marker filename compared against `info.Name()` in
`findFunctionConfigs` (src/lambda-ci.go line 182). -/
def markerName : List Char := ".function.yaml".toList

/-- The pattern `"/.function.yaml"` passed to `strings.Replace` in
`parseFunctionConfig` (src/lambda-ci.go line 206). -/
def markerSeg : List Char := "/.function.yaml".toList

/-- Model of Go `strings.Replace(s, old, new, 1)`: replace the first
(leftmost) non-overlapping occurrence of `pat` in `s` by `rep`;
if `pat` does not occur, return `s` unchanged.  (For the empty pattern
Go inserts `rep` once at the start, which this definition also does.) -/
def replaceOnce (pat rep : List Char) : List Char → List Char
  | [] => if pat = [] then rep else []
  | c :: rest =>
    if pat.isPrefixOf (c :: rest) then rep ++ (c :: rest).drop pat.length
    else c :: replaceOnce pat rep rest

/-- Whether `pat` occurs as a contiguous substring of `s`. -/
def containsSub (pat : List Char) : List Char → Bool
  | [] => pat.isEmpty
  | c :: rest => pat.isPrefixOf (c :: rest) || containsSub pat rest

/-- Spec-side definition (from the spec's words, for comparison with the
source's `replaceOnce`-based computation): strip the trailing
`"/.function.yaml"` segment from the path, i.e. remove `markerSeg`
exactly when it is a suffix. -/
def stripTrailingMarker (s : List Char) : List Char :=
  if markerSeg.isSuffixOf s then s.take (s.length - markerSeg.length) else s

/-- The descriptor record (struct `functionConfig`, src/lambda-ci.go
lines 18-22).  `Path` carries the `yaml:"-"` tag: it is never read from
the YAML document, only set from the file path after decoding. -/
structure functionConfig where
  Name : List Char
  FileName : List Char
  Path : List Char
deriving DecidableEq, Repr

/-- Abstract result of reading a descriptor file's bytes and parsing
them with the YAML library (`gopkg.in/yaml.v2`, an external
collaborator): either the bytes are not valid YAML, or they are valid
YAML but not a mapping (so unmarshalling into a struct fails), or they
are a mapping given as a key/value list in document order. -/
inductive YamlValue
  | invalid
  | nonMapping
  | mapping (pairs : List (List Char × List Char))
deriving DecidableEq

/-- Field lookup as `yaml.v2` binds mapping keys to struct fields:
keys not matching any tagged field are ignored, a missing key leaves
the field at its zero value `""`, and for a duplicated key the last
occurrence wins. -/
def lookupField (key : List Char) (pairs : List (List Char × List Char)) : List Char :=
  (pairs.foldl (fun acc p => if p.1 = key then some p.2 else acc) none).getD []

/-- Model of `yaml.Unmarshal(data, &function)` for the `functionConfig`
struct: fails when the document is invalid or not a mapping; otherwise
binds the keys `"name"` and `"fileName"` (tags on lines 19-20) and
ignores everything else.  `Path` (tag `yaml:"-"`) stays at its zero
value. -/
def yamlUnmarshal : YamlValue → Except Unit functionConfig
  | .invalid => .error ()
  | .nonMapping => .error ()
  | .mapping pairs =>
      .ok ⟨lookupField "name".toList pairs, lookupField "fileName".toList pairs, []⟩

/-- Model of `parseFunctionConfig` (src/lambda-ci.go lines 195-209):
read the file at `path` (`fs` maps a path to `none` on read error,
otherwise to the abstract YAML parse of its bytes), unmarshal, then set
`Path := strings.Replace(path, "/.function.yaml", "", 1)`. -/
def parseFunctionConfig (fs : List Char → Option YamlValue) (path : List Char) :
    Except Unit functionConfig :=
  match fs path with
  | none => .error ()
  | some yv =>
    match yamlUnmarshal yv with
    | .error e => .error e
    | .ok function => .ok { function with Path := replaceOnce markerSeg [] path }

/-- Model of Go `fmt.Sprintf` restricted to `%s` verbs, which is all
the source uses (`"%s/%s"` and `"%s/%s.zip"`): each `%s` in the format
consumes the next argument verbatim; other characters are copied. -/
def sprintf : List Char → List (List Char) → List Char
  | [], _ => []
  | '%' :: 's' :: rest, a :: args => a ++ sprintf rest args
  | '%' :: 's' :: rest, [] => sprintf rest []
  | c :: rest, args => c :: sprintf rest args

/-- `getBuildOutputPath` (src/lambda-ci.go lines 60-62):
`fmt.Sprintf("%s/%s", conf.Path, conf.Name)`. -/
def functionConfig.getBuildOutputPath (conf : functionConfig) : List Char :=
  sprintf "%s/%s".toList [conf.Path, conf.Name]

/-- `getZipOutputPath` (src/lambda-ci.go lines 65-67):
`fmt.Sprintf("%s/%s.zip", conf.Path, conf.Name)`. -/
def functionConfig.getZipOutputPath (conf : functionConfig) : List Char :=
  sprintf "%s/%s.zip".toList [conf.Path, conf.Name]

/-- `getFullFilePath` (src/lambda-ci.go lines 76-78):
`fmt.Sprintf("%s/%s", conf.Path, conf.FileName)`. -/
def functionConfig.getFullFilePath (conf : functionConfig) : List Char :=
  sprintf "%s/%s".toList [conf.Path, conf.FileName]

/-- The subprocess invocation `build` makes (src/lambda-ci.go line 90):
`exec.Command("go", "build", "-o", conf.getBuildOutputPath(),
conf.getFullFilePath())`, as the program name followed by its argument
list. -/
def functionConfig.buildCommand (conf : functionConfig) : List (List Char) :=
  ["go".toList, "build".toList, "-o".toList,
    conf.getBuildOutputPath, conf.getFullFilePath]

/-! ## Discovery (`findFunctionConfigs`, src/lambda-ci.go lines 176-192) -/

/-- A filesystem subtree: named regular files and named directories
with ordered children, as traversed by `filepath.Walk`. -/
inductive FsTree
  | file (name : List Char)
  | dir (name : List Char) (children : List FsTree)

/-- The base name of a tree entry, as reported by `info.Name()`. -/
def FsTree.entryName : FsTree → List Char
  | .file n => n
  | .dir n _ => n

mutual

/-- Model of `filepath.Walk`'s visit order: the entry at `path` itself
first, then (for a directory) each child under the joined path
`path + "/" + childName`, in order.  Each visited entry is recorded as
its full path paired with its base name (`info.Name()`). -/
def walk (path : List Char) : FsTree → List (List Char × List Char)
  | .file n => [(path, n)]
  | .dir n children => (path, n) :: walkChildren path children

/-- Walk each child of a directory at `path`, in order. -/
def walkChildren (path : List Char) : List FsTree → List (List Char × List Char)
  | [] => []
  | c :: rest => walk (path ++ '/' :: c.entryName) c ++ walkChildren path rest

end

/-- `findFunctionConfigs` (src/lambda-ci.go lines 176-192): walk the
tree rooted at `root` and append to `files` the full path of every
visited entry whose base name compares equal to `".function.yaml"`
(`strings.Compare(info.Name(), ".function.yaml") == 0`). -/
def findFunctionConfigs (root : List Char) (t : FsTree) : List (List Char) :=
  (walk root t).foldl
    (fun files e => if e.2 = markerName then files ++ [e.1] else files) []

mutual

/-- Number of entries in a subtree whose name is the marker name. -/
def countMarkerEntries : FsTree → Nat
  | .file n => if n = markerName then 1 else 0
  | .dir n children =>
      (if n = markerName then 1 else 0) + countMarkerEntriesList children

/-- Number of marker-named entries across a list of subtrees. -/
def countMarkerEntriesList : List FsTree → Nat
  | [] => 0
  | c :: rest => countMarkerEntries c + countMarkerEntriesList rest

end

/-! ## Packaging (`zipBuild`, src/lambda-ci.go lines 97-136) -/

/-- Base name of a path: the segment after the last `'/'`, as returned
by `fileStats.Name()` for the opened file. -/
def baseName (s : List Char) : List Char :=
  s.foldl (fun acc c => if c = '/' then [] else acc ++ [c]) []

/-- The `zip.Deflate` method constant (8). -/
def Deflate : Nat := 8

/-- A zip archive entry: header name, header compression method, and
the stored (compressed) data. -/
structure ZipEntry where
  name : List Char
  method : Nat
  data : List Nat
deriving DecidableEq, Repr

/-- The deflate codec of `archive/zip` (an external collaborator),
abstracted as a compress/decompress pair. -/
structure Codec where
  compress : List Nat → List Nat
  decompress : List Nat → List Nat

/-- Model of `zipBuild` (src/lambda-ci.go lines 97-136) on the byte
filesystem `fs`: open the built file at `conf.getBuildOutputPath()`;
on success write one entry whose header name is the file's base name
(`fileStats.Name()`), whose method is `zip.Deflate`, and whose data is
the file's bytes compressed by the writer; return the archive's entry
list.  (Creation of the archive file itself and mid-copy failures are
modelled separately in the process semantics.) -/
def functionConfig.zipBuild (conf : functionConfig) (codec : Codec)
    (fs : List Char → Option (List Nat)) : Except Unit (List ZipEntry) :=
  match fs conf.getBuildOutputPath with
  | none => .error ()
  | some bytes =>
      .ok [⟨baseName conf.getBuildOutputPath, Deflate, codec.compress bytes⟩]

/-- Reading back a zip entry's content decompresses its stored data. -/
def readEntryContent (codec : Codec) (e : ZipEntry) : List Nat :=
  codec.decompress e.data

/-! ## Deploy (`updateLambda`, src/lambda-ci.go lines 140-172) -/

/-- The request struct for `lambda.UpdateFunctionCode` with the fields
the source can set; pointer fields are `Option`s (`nil` = `none`). -/
structure UpdateFunctionCodeInput where
  FunctionName : Option (List Char)
  ZipFile : List Nat
deriving DecidableEq, Repr

/-- The request struct for `lambda.UpdateFunctionConfiguration` with
the fields relevant to the source; pointer fields are `Option`s
(`nil` = `none`). -/
structure UpdateFunctionConfigurationInput where
  FunctionName : Option (List Char)
  Handler : Option (List Char)
deriving DecidableEq, Repr

/-- One remote API call issued by `updateLambda`, carrying the request
it constructed. -/
inductive ApiCall
  | updateCode (inp : UpdateFunctionCodeInput)
  | updateConfig (inp : UpdateFunctionConfigurationInput)
deriving DecidableEq, Repr

/-- Whether an API call is an `UpdateFunctionConfiguration` call. -/
def ApiCall.isConfigCall : ApiCall → Bool
  | .updateCode _ => false
  | .updateConfig _ => true

/-- What the platform reports in response to `UpdateFunctionCode`: the
confirmed function name and the function's current handler (the two
fields the source dereferences). -/
structure FunctionInfo where
  FunctionName : List Char
  Handler : List Char
deriving DecidableEq, Repr

/-- The remote Lambda platform as an oracle: the outcome of the
code-update call and the outcome of the configuration-update call. -/
structure LambdaApi where
  codeResult : Except Unit FunctionInfo
  configResult : Except Unit Unit

/-- Model of `updateLambda` (src/lambda-ci.go lines 140-172): read the
archive file; call `UpdateFunctionCode` with `FunctionName: &conf.Name`
and the archive bytes; on success, if
`strings.Compare(*lambdaInfo.Handler, conf.Name) != 0`, issue one
`UpdateFunctionConfiguration` call whose request sets only
`Handler: &conf.Name` (no `FunctionName`).  Returns the error result
and the list of API calls issued, in order. -/
def functionConfig.updateLambda (conf : functionConfig)
    (fs : List Char → Option (List Nat)) (api : LambdaApi) :
    Except Unit Unit × List ApiCall :=
  match fs conf.getZipOutputPath with
  | none => (.error (), [])
  | some data =>
    let codeCall := ApiCall.updateCode ⟨some conf.Name, data⟩
    match api.codeResult with
    | .error e => (.error e, [codeCall])
    | .ok lambdaInfo =>
      if lambdaInfo.Handler = conf.Name then (.ok (), [codeCall])
      else
        let cfgCall := ApiCall.updateConfig ⟨none, some conf.Name⟩
        match api.configResult with
        | .error e => (.error e, [codeCall, cfgCall])
        | .ok _ => (.ok (), [codeCall, cfgCall])

/-! ## Process semantics of `main`'s per-descriptor scope
(src/lambda-ci.go lines 35-56)

Each loop iteration runs an anonymous function: parse, build (then
`defer mustDeleteBuildFile`), zip (then `defer mustDeleteZipFile`),
deploy.  Every error is reported with `logrus.Fatal*`, which logs and
then calls `os.Exit(1)`; `os.Exit` terminates the process without
running pending deferred functions.  Only when the scope returns
normally do the deferred deletions run, in LIFO order (zip file first,
then build file), each itself fatal on failure. -/

/-- The outcome of each fallible operation in one descriptor's
processing, as booleans (`true` = the Go call returned no error).
`zipCreateOk` is `os.Create` of the archive file; `zipWriteOk` covers
the rest of `zipBuild` (open, stat, header, copy). -/
structure Outcome where
  parseOk : Bool
  buildOk : Bool
  zipCreateOk : Bool
  zipWriteOk : Bool
  deployOk : Bool
  deleteZipOk : Bool
  deleteBuildOk : Bool
deriving DecidableEq, Repr

/-- Which temporary files exist on disk for a descriptor. -/
structure FileState where
  buildFile : Bool
  zipFile : Bool
deriving DecidableEq, Repr

/-- A step attempted during one descriptor's processing. -/
inductive Step
  | parse
  | build
  | zip
  | deploy
  | deleteZip
  | deleteBuild
deriving DecidableEq, Repr

/-- The result of one descriptor's scope: the steps attempted in
order, the temporary-file state when the scope is left, and whether the
process terminated (`logrus.Fatal` → `os.Exit`) inside the scope. -/
structure DescResult where
  trace : List Step
  state : FileState
  exited : Bool
deriving DecidableEq, Repr

/-- One iteration of `main`'s loop (src/lambda-ci.go lines 35-56).
A `false` outcome at any stage is a `logrus.Fatal`: the process exits
at once and pending deferred deletions do not run.  On normal scope
exit the deferred deletions run in LIFO order; a failing deletion is
itself fatal and skips the remaining deferred deletion. -/
def processDescriptor (o : Outcome) : DescResult :=
  if ¬o.parseOk then ⟨[.parse], ⟨false, false⟩, true⟩
  else if ¬o.buildOk then ⟨[.parse, .build], ⟨false, false⟩, true⟩
  else if ¬o.zipCreateOk then
    ⟨[.parse, .build, .zip], ⟨true, false⟩, true⟩
  else if ¬o.zipWriteOk then
    ⟨[.parse, .build, .zip], ⟨true, true⟩, true⟩
  else if ¬o.deployOk then
    ⟨[.parse, .build, .zip, .deploy], ⟨true, true⟩, true⟩
  else if ¬o.deleteZipOk then
    ⟨[.parse, .build, .zip, .deploy, .deleteZip], ⟨true, true⟩, true⟩
  else if ¬o.deleteBuildOk then
    ⟨[.parse, .build, .zip, .deploy, .deleteZip, .deleteBuild],
      ⟨true, false⟩, true⟩
  else
    ⟨[.parse, .build, .zip, .deploy, .deleteZip, .deleteBuild],
      ⟨false, false⟩, false⟩

/-- `main`'s loop over the discovered descriptor files: process each in
turn; a fatal exit inside a scope ends the whole run, leaving later
descriptors untouched. -/
def runMain : List Outcome → List DescResult
  | [] => []
  | o :: rest =>
    let r := processDescriptor o
    if r.exited then [r] else r :: runMain rest

/-! ## Concrete fixtures used by witnesses and counterexamples -/

/-- A filesystem holding the spec's example descriptor at
`/a/b/.function.yaml`. -/
def fsC2Example : List Char → Option YamlValue := fun p =>
  if p = "/a/b/.function.yaml".toList then
    some (.mapping [("name".toList, "foo".toList),
                    ("fileName".toList, "foo.go".toList)])
  else none

/-- A filesystem holding a descriptor inside a directory that is
itself named `.function.yaml`. -/
def fsC2Cex : List Char → Option YamlValue := fun p =>
  if p = "/x/.function.yaml/sub/.function.yaml".toList then
    some (.mapping [("name".toList, "foo".toList),
                    ("fileName".toList, "foo.go".toList)])
  else none

/-- Example descriptor record `name: f`, `fileName: f.go` in `/d`. -/
def cfgC3 : functionConfig := ⟨"f".toList, "f.go".toList, "/d".toList⟩

/-- Byte filesystem holding the archive `/d/f.zip`. -/
def fsC3 : List Char → Option (List Nat) := fun p =>
  if p = "/d/f.zip".toList then some [9] else none

/-- Platform oracle reporting handler `f`, equal to the configured
name. -/
def apiC3 : LambdaApi := ⟨.ok ⟨"f".toList, "f".toList⟩, .ok ()⟩

/-- Example descriptor record `name: f`, `fileName: f.go` in `/d`. -/
def cfgC4 : functionConfig := ⟨"f".toList, "f.go".toList, "/d".toList⟩

/-- Byte filesystem holding the archive `/d/f.zip`. -/
def fsC4 : List Char → Option (List Nat) := fun p =>
  if p = "/d/f.zip".toList then some [9] else none

/-- Platform oracle reporting handler `h`, different from the
configured name. -/
def apiC4 : LambdaApi := ⟨.ok ⟨"f".toList, "h".toList⟩, .ok ()⟩

/-- Example descriptor record `name: f`, `fileName: f.go` in `/d`. -/
def cfgC6 : functionConfig := ⟨"f".toList, "f.go".toList, "/d".toList⟩

/-- Byte filesystem holding the built file `/d/f`. -/
def fsC6 : List Char → Option (List Nat) := fun p =>
  if p = "/d/f".toList then some [7, 8] else none

/-- The identity codec, which trivially satisfies the deflate
round-trip contract. -/
def idCodec : Codec := ⟨id, id⟩

/-! ## Theorems -/

/-- `fmt.Sprintf("%s/%s", a, b)` is `a ++ "/" ++ b`. -/
theorem sprintf_slash (a b : List Char) :
    sprintf ['%', 's', '/', '%', 's'] [a, b] = a ++ '/' :: b := by
  simp [sprintf]

/-- C1: as claimed — for every descriptor processed, the temporary
build file and archive file are both removed on every exit path from
the descriptor's processing scope, including when the deploy step
fails — this is FALSE: when deploy fails, `logrus.Fatalf` calls
`os.Exit`, the deferred deletions do not run, and both files remain on
disk.  Concrete refutation: parse, build and zip succeed, deploy
fails. -/
theorem c1_cleanup_counterexample :
    (processDescriptor ⟨true, true, true, true, false, true, true⟩).state.buildFile = true ∧
    (processDescriptor ⟨true, true, true, true, false, true, true⟩).state.zipFile = true ∧
    (processDescriptor ⟨true, true, true, true, false, true, true⟩).exited = true := by
  decide

/-- C1 (amended): given that parse, build and both zip phases succeed
(and the deletions themselves succeed when reached), the two temporary
files are both removed if and only if the deploy step succeeds; when
deploy fails the process terminates inside the scope (fatal exit), so
the deferred cleanups never run. -/
theorem c1_cleanup_iff_deploy (o : Outcome)
    (hp : o.parseOk = true) (hb : o.buildOk = true)
    (hzc : o.zipCreateOk = true) (hzw : o.zipWriteOk = true)
    (hdz : o.deleteZipOk = true) (hdb : o.deleteBuildOk = true) :
    (((processDescriptor o).state.buildFile = false ∧
      (processDescriptor o).state.zipFile = false) ↔ o.deployOk = true) ∧
    (o.deployOk = false → (processDescriptor o).exited = true) := by
  obtain ⟨p, b, zc, zw, d, dz, db⟩ := o
  simp only at hp hb hzc hzw hdz hdb
  subst hp hb hzc hzw hdz hdb
  revert d
  decide

/-- Witness for `c1_cleanup_iff_deploy` at the all-success outcome. -/
theorem c1_cleanup_iff_deploy_witness :
    (((processDescriptor ⟨true, true, true, true, true, true, true⟩).state.buildFile = false ∧
      (processDescriptor ⟨true, true, true, true, true, true, true⟩).state.zipFile = false) ↔
        (Outcome.mk true true true true true true true).deployOk = true) ∧
    ((Outcome.mk true true true true true true true).deployOk = false →
      (processDescriptor ⟨true, true, true, true, true, true, true⟩).exited = true) :=
  c1_cleanup_iff_deploy ⟨true, true, true, true, true, true, true⟩ rfl rfl rfl rfl rfl rfl

/-- C7: for every descriptor whose compiler invocation exits non-zero
(parse succeeded, build failed), the zip step is never attempted, no
archive file exists, the deploy step is never attempted, and the
process terminates. -/
theorem c7_build_failure_stops (o : Outcome)
    (hp : o.parseOk = true) (hb : o.buildOk = false) :
    (processDescriptor o).state.zipFile = false ∧
    Step.zip ∉ (processDescriptor o).trace ∧
    Step.deploy ∉ (processDescriptor o).trace ∧
    (processDescriptor o).exited = true := by
  obtain ⟨p, b, zc, zw, d, dz, db⟩ := o
  simp only at hp hb
  subst hp hb
  revert zc zw d dz db
  decide

/-- Witness for `c7_build_failure_stops`. -/
theorem c7_build_failure_stops_witness :
    (processDescriptor ⟨true, false, true, true, true, true, true⟩).state.zipFile = false ∧
    Step.zip ∉ (processDescriptor ⟨true, false, true, true, true, true, true⟩).trace ∧
    Step.deploy ∉ (processDescriptor ⟨true, false, true, true, true, true, true⟩).trace ∧
    (processDescriptor ⟨true, false, true, true, true, true, true⟩).exited = true :=
  c7_build_failure_stops ⟨true, false, true, true, true, true, true⟩ rfl rfl

/-- C8: a failure terminates the whole batch — if the first
descriptor's build fails, the run's results consist of the first
descriptor's (aborted) scope only; the second descriptor (and any
later ones) is never parsed, built, packaged or deployed. -/
theorem c8_first_failure_halts_batch (o₁ o₂ : Outcome) (rest : List Outcome)
    (hp : o₁.parseOk = true) (hb : o₁.buildOk = false) :
    runMain (o₁ :: o₂ :: rest) = [processDescriptor o₁] := by
  obtain ⟨p, b, zc, zw, d, dz, db⟩ := o₁
  simp only at hp hb
  subst hp hb
  simp [runMain, processDescriptor]

/-- Witness for `c8_first_failure_halts_batch`. -/
theorem c8_first_failure_halts_batch_witness :
    runMain [⟨true, false, true, true, true, true, true⟩,
             ⟨true, true, true, true, true, true, true⟩] =
      [processDescriptor ⟨true, false, true, true, true, true, true⟩] :=
  c8_first_failure_halts_batch ⟨true, false, true, true, true, true, true⟩
    ⟨true, true, true, true, true, true, true⟩ [] rfl rfl

/-- C10: for every parsed descriptor, the build step invokes the
compiler as `go` with exactly the arguments
`build`, `-o`, `<directory>/<name>`, `<directory>/<fileName>`. -/
theorem c10_build_command (conf : functionConfig) :
    conf.buildCommand =
      ["go".toList, "build".toList, "-o".toList,
        conf.Path ++ '/' :: conf.Name, conf.Path ++ '/' :: conf.FileName] := by
  simp [functionConfig.buildCommand, functionConfig.getBuildOutputPath,
    functionConfig.getFullFilePath, sprintf_slash]

/-- When the marker segment occurs in `pre ++ markerSeg` only as the
trailing copy (no occurrence starts inside `pre`), replacing the first
occurrence strips exactly the trailing segment, leaving `pre`. -/
theorem replaceOnce_of_marker_suffix (pre : List Char)
    (h : ∀ i, i < pre.length →
      markerSeg.isPrefixOf ((pre ++ markerSeg).drop i) = false) :
    replaceOnce markerSeg [] (pre ++ markerSeg) = pre := by
  induction pre with
  | nil => decide
  | cons c pre ih =>
    have h0 : markerSeg.isPrefixOf (c :: (pre ++ markerSeg)) = false := by
      simpa using h 0 (by simp)
    show replaceOnce markerSeg [] (c :: (pre ++ markerSeg)) = c :: pre
    rw [replaceOnce, h0]
    simp only [Bool.false_eq_true, if_false]
    refine congrArg (c :: ·) (ih fun i hi => ?_)
    simpa using h (i + 1) (by simpa using Nat.succ_lt_succ hi)

/-- C2: as claimed — the parsed record's directory is the path's
containing folder, obtained by stripping the TRAILING
`"/.function.yaml"` segment — this is FALSE in general: the source
replaces the FIRST occurrence (`strings.Replace(path,
"/.function.yaml", "", 1)`).  At the discoverable descriptor path
`/x/.function.yaml/sub/.function.yaml` (a directory itself named
`.function.yaml`), the code stores `/x/sub/.function.yaml`, which is
not the containing folder `/x/.function.yaml/sub`. -/
theorem c2_directory_counterexample :
    parseFunctionConfig fsC2Cex "/x/.function.yaml/sub/.function.yaml".toList =
      .ok ⟨"foo".toList, "foo.go".toList, "/x/sub/.function.yaml".toList⟩ ∧
    "/x/sub/.function.yaml".toList ≠
      stripTrailingMarker "/x/.function.yaml/sub/.function.yaml".toList := by
  exact ⟨rfl, by decide⟩

/-- C2 (amended): parsing decodes the mapping's `name` and `fileName`
fields and sets the directory by removing the FIRST occurrence of
`"/.function.yaml"` from the path; whenever the marker's only
occurrence is the trailing one, this is the containing folder — in
particular `/a/b/.function.yaml` with `name: "foo"`,
`fileName: "foo.go"` yields directory `/a/b`, name `foo`, fileName
`foo.go`. -/
theorem c2_directory_amended (fs : List Char → Option YamlValue)
    (path pre : List Char) (pairs : List (List Char × List Char))
    (hfs : fs path = some (.mapping pairs))
    (hpath : path = pre ++ markerSeg)
    (honce : ∀ i, i < pre.length →
      markerSeg.isPrefixOf (path.drop i) = false) :
    parseFunctionConfig fs path =
      .ok ⟨lookupField "name".toList pairs,
           lookupField "fileName".toList pairs, pre⟩ := by
  subst hpath
  simp [parseFunctionConfig, hfs, yamlUnmarshal,
    replaceOnce_of_marker_suffix pre honce]

/-- Witness for `c2_directory_amended`: the spec's own example
descriptor at `/a/b/.function.yaml`. -/
theorem c2_directory_amended_witness :
    parseFunctionConfig fsC2Example "/a/b/.function.yaml".toList =
      .ok ⟨"foo".toList, "foo.go".toList, "/a/b".toList⟩ := by
  have h := c2_directory_amended fsC2Example "/a/b/.function.yaml".toList
    "/a/b".toList
    [("name".toList, "foo".toList), ("fileName".toList, "foo.go".toList)]
    (by decide) (by decide) (by decide)
  simpa [lookupField] using h

/-- C3: after a successful code-update call, no configuration-update
call is issued when the reported handler equals the configured name,
and exactly one configuration-update call — setting the handler to the
configured name — is issued when it differs. -/
theorem c3_handler_update (conf : functionConfig)
    (fs : List Char → Option (List Nat)) (api : LambdaApi)
    (data : List Nat) (info : FunctionInfo)
    (hfs : fs conf.getZipOutputPath = some data)
    (hcode : api.codeResult = .ok info) :
    (info.Handler = conf.Name →
      ((conf.updateLambda fs api).2.filter ApiCall.isConfigCall) = []) ∧
    (info.Handler ≠ conf.Name →
      ((conf.updateLambda fs api).2.filter ApiCall.isConfigCall) =
        [ApiCall.updateConfig ⟨none, some conf.Name⟩]) := by
  constructor
  · intro h
    simp [functionConfig.updateLambda, hfs, hcode, h, ApiCall.isConfigCall]
  · intro h
    cases hcfg : api.configResult <;>
      simp [functionConfig.updateLambda, hfs, hcode, h, hcfg,
        ApiCall.isConfigCall]

/-- Witness for `c3_handler_update`: matching handler, no config
call. -/
theorem c3_handler_update_witness :
    ((cfgC3.updateLambda fsC3 apiC3).2.filter ApiCall.isConfigCall) = [] :=
  (c3_handler_update cfgC3 fsC3 apiC3 [9] ⟨"f".toList, "f".toList⟩
    (by decide) rfl).1 rfl

/-- C4: when the reported handler differs from the configured name,
the follow-up configuration-update request sets only the handler (to
the configured name) and omits the function name (`FunctionName` is
left `nil`). -/
theorem c4_config_request_omits_function_name (conf : functionConfig)
    (fs : List Char → Option (List Nat)) (api : LambdaApi)
    (data : List Nat) (info : FunctionInfo)
    (hfs : fs conf.getZipOutputPath = some data)
    (hcode : api.codeResult = .ok info)
    (hne : info.Handler ≠ conf.Name) :
    (conf.updateLambda fs api).2 =
      [ApiCall.updateCode ⟨some conf.Name, data⟩,
       ApiCall.updateConfig ⟨none, some conf.Name⟩] := by
  cases hcfg : api.configResult <;>
    simp [functionConfig.updateLambda, hfs, hcode, hne, hcfg]

/-- Witness for `c4_config_request_omits_function_name`. -/
theorem c4_config_request_omits_function_name_witness :
    (cfgC4.updateLambda fsC4 apiC4).2 =
      [ApiCall.updateCode ⟨some "f".toList, [9]⟩,
       ApiCall.updateConfig ⟨none, some "f".toList⟩] :=
  c4_config_request_omits_function_name cfgC4 fsC4 apiC4 [9]
    ⟨"f".toList, "h".toList⟩ (by decide) rfl (by decide)

/-- The append-accumulating fold of `findFunctionConfigs` collects
exactly the paths of the marker-named entries, in visit order. -/
theorem foldl_marker_collect (l : List (List Char × List Char))
    (acc : List (List Char)) :
    l.foldl (fun files e => if e.2 = markerName then files ++ [e.1] else files) acc
      = acc ++ (l.filter (fun e => e.2 = markerName)).map Prod.fst := by
  induction l generalizing acc with
  | nil => simp
  | cons e rest ih =>
    by_cases h : e.2 = markerName <;> simp [h, ih, List.filter_cons]

mutual

/-- The marker-named entries visited under a subtree are counted by
`countMarkerEntries`, independently of the root path. -/
theorem walk_filter_length (path : List Char) (t : FsTree) :
    ((walk path t).filter (fun e => e.2 = markerName)).length
      = countMarkerEntries t := by
  cases t with
  | file n =>
    by_cases h : n = markerName <;>
      simp [walk, countMarkerEntries, List.filter_cons, h]
  | dir n cs =>
    have hc := walkChildren_filter_length path cs
    by_cases h : n = markerName
    · simp [walk, countMarkerEntries, List.filter_cons, h, hc]
      omega
    · simp [walk, countMarkerEntries, List.filter_cons, h, hc]

/-- List form of `walk_filter_length` over a directory's children. -/
theorem walkChildren_filter_length (path : List Char) (cs : List FsTree) :
    ((walkChildren path cs).filter (fun e => e.2 = markerName)).length
      = countMarkerEntriesList cs := by
  cases cs with
  | nil => simp [walkChildren, countMarkerEntriesList]
  | cons c rest =>
    have h1 := walk_filter_length (path ++ '/' :: c.entryName) c
    have h2 := walkChildren_filter_length path rest
    simp [walkChildren, countMarkerEntriesList, List.filter_append, h1, h2]

end

/-- C5: for every root, discovery returns exactly the full paths of
the entries in the subtree whose base name equals `.function.yaml` —
one path per marker-named entry (the count matches), and no paths when
no such entry exists anywhere in the subtree. -/
theorem c5_discovery_exact (root : List Char) (t : FsTree) :
    findFunctionConfigs root t
        = ((walk root t).filter (fun e => e.2 = markerName)).map Prod.fst ∧
      (findFunctionConfigs root t).length = countMarkerEntries t ∧
      (countMarkerEntries t = 0 → findFunctionConfigs root t = []) := by
  have h1 : findFunctionConfigs root t
      = ((walk root t).filter (fun e => e.2 = markerName)).map Prod.fst := by
    simpa using foldl_marker_collect (walk root t) []
  refine ⟨h1, ?_, ?_⟩
  · rw [h1, List.length_map, walk_filter_length]
  · intro h0
    have hlen := walk_filter_length root t
    rw [h0, List.length_eq_zero] at hlen
    rw [h1, hlen, List.map_nil]

/-- Witness for `c5_discovery_exact`: a tree with no marker-named
entry yields no descriptor paths. -/
theorem c5_discovery_exact_witness :
    findFunctionConfigs "/r".toList
      (FsTree.dir "r".toList [FsTree.file "x.go".toList]) = [] :=
  (c5_discovery_exact "/r".toList
    (FsTree.dir "r".toList [FsTree.file "x.go".toList])).2.2 (by decide)

/-- C6: packaging an existing readable built file produces an archive
with a single entry whose read-back content is byte-identical to the
file, whose name is the built file's base name, and whose compression
method is deflate — given the codec's inflate/deflate round-trip
contract. -/
theorem c6_zip_roundtrip (codec : Codec) (conf : functionConfig)
    (fs : List Char → Option (List Nat)) (bytes : List Nat)
    (hcodec : ∀ b, codec.decompress (codec.compress b) = b)
    (hfs : fs conf.getBuildOutputPath = some bytes) :
    ∃ e : ZipEntry,
      conf.zipBuild codec fs = .ok [e] ∧
      readEntryContent codec e = bytes ∧
      e.name = baseName conf.getBuildOutputPath ∧
      e.method = Deflate := by
  refine ⟨⟨baseName conf.getBuildOutputPath, Deflate, codec.compress bytes⟩,
    ?_, ?_, rfl, rfl⟩
  · simp [functionConfig.zipBuild, hfs]
  · simp [readEntryContent, hcodec]

/-- Witness for `c6_zip_roundtrip` with the identity codec. -/
theorem c6_zip_roundtrip_witness :
    ∃ e : ZipEntry,
      cfgC6.zipBuild idCodec fsC6 = .ok [e] ∧
      readEntryContent idCodec e = [7, 8] ∧
      e.name = baseName cfgC6.getBuildOutputPath ∧
      e.method = Deflate :=
  c6_zip_roundtrip idCodec cfgC6 fsC6 [7, 8] (fun _ => rfl) (by decide)

/-- A key absent from every pair of a mapping leaves the bound field
at the zero value `""`. -/
theorem lookupField_eq_default (key : List Char)
    (ps : List (List Char × List Char)) (h : ∀ q ∈ ps, q.1 ≠ key) :
    lookupField key ps = [] := by
  have hfold : ps.foldl
      (fun acc p => if p.1 = key then some p.2 else acc) none = none := by
    induction ps with
    | nil => rfl
    | cons q rest ih =>
      have hq : q.1 ≠ key := h q (by simp)
      simp only [List.foldl_cons, hq, if_false]
      exact ih fun q' hq' => h q' (by simp [hq'])
  simp [lookupField, hfold]

/-- C9: decoding fails exactly when the content is not valid YAML or
not a mapping (and parsing then fails exactly when decoding does);
unknown mapping keys are ignored; a mapping missing the `name` or
`fileName` key decodes successfully with that field set to the empty
string. -/
theorem c9_decode_behavior :
    (∀ yv : YamlValue,
      yamlUnmarshal yv = .error () ↔ yv = .invalid ∨ yv = .nonMapping) ∧
    (∀ (fs : List Char → Option YamlValue) (path : List Char)
        (yv : YamlValue), fs path = some yv →
      (parseFunctionConfig fs path = .error () ↔
        yamlUnmarshal yv = .error ())) ∧
    (∀ (ps₁ ps₂ : List (List Char × List Char)) (k v : List Char),
      k ≠ "name".toList → k ≠ "fileName".toList →
      yamlUnmarshal (.mapping (ps₁ ++ (k, v) :: ps₂)) =
        yamlUnmarshal (.mapping (ps₁ ++ ps₂))) ∧
    (∀ ps : List (List Char × List Char),
      (∀ q ∈ ps, q.1 ≠ "name".toList) →
      ∃ cfg, yamlUnmarshal (.mapping ps) = .ok cfg ∧ cfg.Name = []) ∧
    (∀ ps : List (List Char × List Char),
      (∀ q ∈ ps, q.1 ≠ "fileName".toList) →
      ∃ cfg, yamlUnmarshal (.mapping ps) = .ok cfg ∧ cfg.FileName = []) := by
  refine ⟨?_, ?_, ?_, ?_, ?_⟩
  · intro yv
    cases yv <;> simp [yamlUnmarshal]
  · intro fs path yv h
    cases yv <;> simp [parseFunctionConfig, h, yamlUnmarshal]
  · intro ps₁ ps₂ k v hk hk2
    have hk' : ¬k = ['n', 'a', 'm', 'e'] := by simpa using hk
    have hk2' : ¬k = ['f', 'i', 'l', 'e', 'N', 'a', 'm', 'e'] := by
      simpa using hk2
    simp [yamlUnmarshal, lookupField, List.foldl_append, hk', hk2']
  · intro ps h
    exact ⟨_, rfl, lookupField_eq_default _ ps h⟩
  · intro ps h
    exact ⟨_, rfl, lookupField_eq_default _ ps h⟩

/-- Witness for `c9_decode_behavior`: invalid content errors, an
unknown key is ignored, and a mapping with only `fileName` still
decodes with an empty name. -/
theorem c9_decode_behavior_witness :
    yamlUnmarshal .invalid = .error () ∧
    yamlUnmarshal (.mapping [("other".toList, "v".toList)]) =
      yamlUnmarshal (.mapping []) ∧
    ∃ cfg, yamlUnmarshal (.mapping [("fileName".toList, "a.go".toList)]) =
      .ok cfg ∧ cfg.Name = [] :=
  ⟨(c9_decode_behavior.1 .invalid).mpr (Or.inl rfl),
   c9_decode_behavior.2.2.1 [] [] "other".toList "v".toList
     (by decide) (by decide),
   c9_decode_behavior.2.2.2.1 [("fileName".toList, "a.go".toList)]
     (by decide)⟩

end LambdaCI
